import Mathlib

/-!
Verification of the point-attribute filter engine (DIP repository).

This file gives a shallow embedding of the two filter tools:

* `ScaleFilterTool` (`src/tools/scale-filter.ts`): range filter with
  baseline/preview/commit state machine and drag grouping;
* `KnnOutlierFilterTool` (`src/unnamed/part_000`): spatial-hash KNN outlier
  classifier with baseline snapshot and reversible reset.

Modelling conventions:

* JS numbers are modelled as `ℚ` (exact arithmetic); `Number.isFinite` is
  always true on `ℚ`.
* `Math.exp` is an external transcendental function; it is modelled as an
  abstract parameter `exp : ℚ → ℚ`, so `sigmoid exp` mirrors the source's
  `1 / (1 + Math.exp(-raw))` exactly up to the meaning of `exp`.
* `Float32Array` / `Uint8Array` buffers are `List ℚ` / `List ℕ`; reads use
  `List.getD` (out-of-range writes on typed arrays are dropped, which matches
  `List.set`'s out-of-range behaviour).
* `sd.numSplats ?? state.length` is modelled as `state.length` (the state
  buffer is created with length `numSplats` when absent).
* `state.set(bytes)` on equal-length arrays is modelled as replacing the
  state list by `bytes`.
* operations that `console.warn`/`return` early are total functions returning
  their inputs unchanged together with an empty list of pushed undo operations.
* event labels and the render-refresh notification carry no state and are
  omitted.
-/

/-- Modelled from the spec: `splat-state.ts` is not part of the repository
sources. The spec's data model requires a per-point byte of bit flags
"including at least `DELETED`"; we fix the `DELETED` flag as bit 2
(value `4`). All results depend only on it being one fixed single bit. -/
def State.deleted : ℕ := 4

/-- One splat (point set): optional attribute buffers as probed via
`getProp` fallbacks in the source, plus the mutable per-point state bitmask. -/
structure Splat where
  x : Option (List ℚ)
  y : Option (List ℚ)
  z : Option (List ℚ)
  scale0 : Option (List ℚ)
  scale1 : Option (List ℚ)
  scale2 : Option (List ℚ)
  opacity : Option (List ℚ)
  state : List ℕ
deriving DecidableEq

/-- The scene as seen by `scene.getElementsByType(ElementType.splat)`:
either no splat is loaded or one active splat (the tools use `splats[0]`). -/
abbrev Scene := Option Splat

/-- State bitmask of the scene's splat (empty when no splat is loaded). -/
def sceneState (sc : Scene) : List ℕ :=
  match sc with
  | none => []
  | some sp => sp.state

/-- Generic in-place filter loop `for i in 0..n-1: if cond(i, state[i]) then
state[i] |= State.deleted`, with `n = state.length`.  Both tools' marking
loops have this shape: the condition reads at most the byte being processed
(`isActive(i)` in the KNN tool) and the per-point decision. -/
def orBitPass (cond : ℕ → ℕ → Bool) (st : List ℕ) : List ℕ :=
  (List.range st.length).foldl
    (fun s i => if cond i (s.getD i 0) then s.set i (s.getD i 0 ||| State.deleted) else s) st

/-- Recursive form of the marking loop: `orBitAux cond n st` processes
indices `0, 1, ..., n-1` in order. -/
def orBitAux (cond : ℕ → ℕ → Bool) : ℕ → List ℕ → List ℕ
  | 0, st => st
  | n + 1, st =>
    let s := orBitAux cond n st
    if cond n (s.getD n 0) then s.set n (s.getD n 0 ||| State.deleted) else s

/-- Range-filter parameters `{minScale, maxScale, threshold}`. -/
structure ScaleParams where
  minScale : ℚ
  maxScale : ℚ
  threshold : ℚ
deriving DecidableEq

/-- Drag kind `'scale' | 'opacity'`. -/
inductive FilterKind where
  | scale : FilterKind
  | opacity : FilterKind
deriving DecidableEq

/-- An open drag transaction (`Pending` in the source). -/
structure Pending where
  kind : FilterKind
  beforeState : List ℕ
  beforeParams : ScaleParams
deriving DecidableEq

/-- Mutable fields of `ScaleFilterTool`. -/
structure ScaleTool where
  baselineState : Option (List ℕ)
  minScale : ℚ
  maxScale : ℚ
  opacityThreshold : ℚ
  pending : Option Pending
deriving DecidableEq

/-- `getParams()`. -/
def getParams (t : ScaleTool) : ScaleParams :=
  ⟨t.minScale, t.maxScale, t.opacityThreshold⟩

/-- The reversible operation pushed by `pushUndoOp` (the `label` string and
`destroy` are omitted; `do`/`undo` are given by `scaleOpDo`/`scaleOpUndo`). -/
structure ScaleOp where
  beforeState : List ℕ
  afterState : List ℕ
  beforeParams : ScaleParams
  afterParams : ScaleParams
deriving DecidableEq

/-- `setParamsAndNotifyUI(p)` (the `filter.scale.uiSet` event only updates
sliders and is not modelled). -/
def setParamsAndNotifyUI (t : ScaleTool) (p : ScaleParams) : ScaleTool :=
  { t with minScale := p.minScale, maxScale := p.maxScale,
           opacityThreshold := p.threshold }

/-- `op.do()`: announce `afterParams`, then reapply `afterState`. -/
def scaleOpDo (op : ScaleOp) (t : ScaleTool) (sc : Scene) : ScaleTool × Scene :=
  (setParamsAndNotifyUI t op.afterParams,
   sc.map (fun sp => { sp with state := op.afterState }))

/-- `op.undo()`: announce `beforeParams`, then reapply `beforeState`. -/
def scaleOpUndo (op : ScaleOp) (t : ScaleTool) (sc : Scene) : ScaleTool × Scene :=
  (setParamsAndNotifyUI t op.beforeParams,
   sc.map (fun sp => { sp with state := op.beforeState }))

/-- `sigmoid(raw) = 1 / (1 + Math.exp(-raw))` with `Math.exp` abstract. -/
def sigmoid (exp : ℚ → ℚ) (raw : ℚ) : ℚ := 1 / (1 + exp (-raw))

/-- Opacity-domain sniffing: `opacityIsLogit = v < 0 || v > 1` where `v` is
the first value of the opacity buffer, `false` when the buffer is absent or
empty. -/
def opacityIsLogit (opArr : Option (List ℚ)) : Bool :=
  match opArr with
  | some (v :: _) => decide (v < 0) || decide (1 < v)
  | _ => false

/-- Per-point deletion decision of the range-filter loop body:
`sLog = max(s0[i], s1[i], s2[i])`, `del = sLog < minS || sLog > maxS`, and
when `!del && thr > 0 && opArr` the decoded opacity is compared with `thr`. -/
def scaleDelAt (exp : ℚ → ℚ) (s0 s1 s2 : List ℚ) (opArr : Option (List ℚ))
    (isLogit : Bool) (minS maxS thr : ℚ) (i : ℕ) : Bool :=
  let sLog := max (s0.getD i 0) (max (s1.getD i 0) (s2.getD i 0))
  let del := decide (sLog < minS) || decide (maxS < sLog)
  if !del && decide (0 < thr) then
    match opArr with
    | some arr =>
      let raw := arr.getD i 0
      let a := if isLogit then sigmoid exp raw else raw
      del || decide (a < thr)
    | none => del
  else del

/-- `applyPreviewOnly` on a present splat: capture the baseline on first use,
restore it (`state.set(baselineState)`), then — if all three scale buffers
resolve — run the marking loop; otherwise return after the restore. -/
def applyPreviewOnlySplat (exp : ℚ → ℚ) (t : ScaleTool) (sp : Splat) :
    ScaleTool × Splat :=
  let baseline := t.baselineState.getD sp.state
  let t1 : ScaleTool := { t with baselineState := some baseline }
  match sp.scale0, sp.scale1, sp.scale2 with
  | some s0, some s1, some s2 =>
    let isLogit := opacityIsLogit sp.opacity
    let newState := orBitPass
      (fun i _ => scaleDelAt exp s0 s1 s2 sp.opacity isLogit
        t.minScale t.maxScale t.opacityThreshold i) baseline
    (t1, { sp with state := newState })
  | _, _, _ => (t1, { sp with state := baseline })

/-- `applyPreviewOnly`: returns early when `getSplatAndState()` finds no
splat. -/
def applyPreviewOnly (exp : ℚ → ℚ) (t : ScaleTool) (sc : Scene) :
    ScaleTool × Scene :=
  match sc with
  | none => (t, none)
  | some sp =>
    let r := applyPreviewOnlySplat exp t sp
    (r.1, some r.2)

/-- `previewScale(minScale, maxScale)`. -/
def previewScale (exp : ℚ → ℚ) (t : ScaleTool) (sc : Scene)
    (minS maxS : ℚ) : ScaleTool × Scene :=
  applyPreviewOnly exp { t with minScale := minS, maxScale := maxS } sc

/-- `previewOpacity(threshold)`. -/
def previewOpacity (exp : ℚ → ℚ) (t : ScaleTool) (sc : Scene)
    (thr : ℚ) : ScaleTool × Scene :=
  applyPreviewOnly exp { t with opacityThreshold := thr } sc

/-- `applyAllWithUndo(beforeParams, afterParams)`: single-shot path. -/
def applyAllWithUndo (exp : ℚ → ℚ) (t : ScaleTool) (sc : Scene)
    (beforeParams afterParams : ScaleParams) : ScaleTool × Scene × List ScaleOp :=
  match sc with
  | none => (t, sc, [])
  | some sp =>
    let beforeState := sp.state
    let r := applyPreviewOnlySplat exp t sp
    (r.1, some r.2, [⟨beforeState, r.2.state, beforeParams, afterParams⟩])

/-- `applyScale(minScale, maxScale)`: set params, then one apply + one undo
entry. -/
def applyScale (exp : ℚ → ℚ) (t : ScaleTool) (sc : Scene)
    (minS maxS : ℚ) : ScaleTool × Scene × List ScaleOp :=
  let beforeParams := getParams t
  let t1 : ScaleTool := { t with minScale := minS, maxScale := maxS }
  let afterParams := getParams t1
  applyAllWithUndo exp t1 sc beforeParams afterParams

/-- `applyOpacity(threshold)`. -/
def applyOpacity (exp : ℚ → ℚ) (t : ScaleTool) (sc : Scene)
    (thr : ℚ) : ScaleTool × Scene × List ScaleOp :=
  let beforeParams := getParams t
  let t1 : ScaleTool := { t with opacityThreshold := thr }
  let afterParams := getParams t1
  applyAllWithUndo exp t1 sc beforeParams afterParams

/-- `commit(kind)`: without a matching pending transaction this is a
single-shot apply-and-record; with one, it re-previews, records
`beforeState → afterState` from the transaction anchor and clears it. -/
def commit (exp : ℚ → ℚ) (kind : FilterKind) (t : ScaleTool) (sc : Scene) :
    ScaleTool × Scene × List ScaleOp :=
  match sc with
  | none => (t, sc, [])
  | some sp =>
    match t.pending with
    | some pend =>
      if pend.kind = kind then
        let r := applyPreviewOnlySplat exp t sp
        ({ r.1 with pending := none }, some r.2,
         [⟨pend.beforeState, r.2.state, pend.beforeParams, getParams r.1⟩])
      else
        let beforeParams := getParams t
        let beforeState := sp.state
        let r := applyPreviewOnlySplat exp t sp
        (r.1, some r.2, [⟨beforeState, r.2.state, beforeParams, getParams r.1⟩])
    | none =>
      let beforeParams := getParams t
      let beforeState := sp.state
      let r := applyPreviewOnlySplat exp t sp
      (r.1, some r.2, [⟨beforeState, r.2.state, beforeParams, getParams r.1⟩])

/-- `begin(kind)`: auto-commit a leftover transaction, then capture the
current state bitmask and parameters as the new transaction's undo anchor. -/
def begin (exp : ℚ → ℚ) (kind : FilterKind) (t : ScaleTool) (sc : Scene) :
    ScaleTool × Scene × List ScaleOp :=
  match sc with
  | none => (t, sc, [])
  | some _ =>
    let r := match t.pending with
      | some pend => commit exp pend.kind t sc
      | none => (t, sc, [])
    ({ r.1 with pending := some ⟨kind, sceneState r.2.1, getParams r.1⟩ },
     r.2.1, r.2.2)

/-- `resetBaseline()`. -/
def resetBaseline (t : ScaleTool) : ScaleTool :=
  { t with baselineState := none }

/-- The scale-slider emit handler (`src/unnamed/part_004`, `emitScale`):
when `minScale > maxScale` the max slider is coerced to `minScale` before the
filter event is fired.  Returns the `(minScale, maxScale)` pair delivered to
the filter. -/
def emitScale (minV maxV : ℚ) : ℚ × ℚ :=
  if maxV < minV then (minV, minV) else (minV, maxV)

/-- KNN parameters `{k, threshold}` (`threshold` is the query radius). -/
structure KnnParams where
  k : ℚ
  threshold : ℚ
deriving DecidableEq

/-- Mutable fields of `KnnOutlierFilterTool`. -/
structure KnnTool where
  baselineState : Option (List ℕ)
  lastParams : Option KnnParams
deriving DecidableEq

/-- The reversible operation pushed by the KNN tool's `pushUndoOp`. -/
structure KnnOp where
  beforeState : List ℕ
  afterState : List ℕ
  beforeParams : KnnParams
  afterParams : KnnParams
deriving DecidableEq

/-- KNN `op.do()`. -/
def knnOpDo (op : KnnOp) (t : KnnTool) (sc : Scene) : KnnTool × Scene :=
  ({ t with lastParams := some op.afterParams },
   sc.map (fun sp => { sp with state := op.afterState }))

/-- KNN `op.undo()`. -/
def knnOpUndo (op : KnnOp) (t : KnnTool) (sc : Scene) : KnnTool × Scene :=
  ({ t with lastParams := some op.beforeParams },
   sc.map (fun sp => { sp with state := op.beforeState }))

/-- `getSplatSdStateXYZ()`: resolve the position buffers, failing when any of
`x`, `y`, `z` is absent or `x` is empty (`!x || !y || !z || x.length === 0`). -/
def getCtx (sc : Scene) : Option (Splat × List ℚ × List ℚ × List ℚ) :=
  match sc with
  | none => none
  | some sp =>
    match sp.x, sp.y, sp.z with
    | some xs, some ys, some zs =>
      if xs.isEmpty then none else some (sp, xs, ys, zs)
    | _, _, _ => none

/-- Grid cell of point `i`: `(floor(x[i]*inv), floor(y[i]*inv), floor(z[i]*inv))`
with `inv = 1/threshold`.  The string key `"cx,cy,cz"` is an injective encoding
of this integer triple. -/
def cellOf (xs ys zs : List ℚ) (inv : ℚ) (i : ℕ) : ℤ × ℤ × ℤ :=
  (⌊xs.getD i 0 * inv⌋, ⌊ys.getD i 0 * inv⌋, ⌊zs.getD i 0 * inv⌋)

/-- Append index `i` to the bucket of `key` (`cells.get(key).push(i)`). -/
def cellKeyUpdate (m : ℤ × ℤ × ℤ → List ℕ) (key : ℤ × ℤ × ℤ) (i : ℕ) :
    ℤ × ℤ × ℤ → List ℕ :=
  fun c => if c = key then m key ++ [i] else m c

/-- The spatial-hash build loop: for `i in 0..n-1`, skip points whose
`DELETED` bit is set (`isActive`), bucket the rest by `cellOf`. -/
def buildCells (xs ys zs : List ℚ) (inv : ℚ) (st : List ℕ) :
    ℤ × ℤ × ℤ → List ℕ :=
  (List.range st.length).foldl
    (fun m i =>
      if st.getD i 0 &&& State.deleted == 0 then
        cellKeyUpdate m (cellOf xs ys zs inv i) i
      else m)
    (fun _ => [])

/-- The 27 cell offsets `(dx, dy, dz)` scanned by the three nested loops
(`dz` outermost, `dx` innermost, each from `-1` to `1`). -/
def nbrOffsets : List (ℤ × ℤ × ℤ) :=
  [(-1, -1, -1), (0, -1, -1), (1, -1, -1),
   (-1, 0, -1), (0, 0, -1), (1, 0, -1),
   (-1, 1, -1), (0, 1, -1), (1, 1, -1),
   (-1, -1, 0), (0, -1, 0), (1, -1, 0),
   (-1, 0, 0), (0, 0, 0), (1, 0, 0),
   (-1, 1, 0), (0, 1, 0), (1, 1, 0),
   (-1, -1, 1), (0, -1, 1), (1, -1, 1),
   (-1, 0, 1), (0, 0, 1), (1, 0, 1),
   (-1, 1, 1), (0, 1, 1), (1, 1, 1)]

/-- Squared distance between points `i` and `j`
(`dxp*dxp + dyp*dyp + dzp*dzp`). -/
def d2At (xs ys zs : List ℚ) (i j : ℕ) : ℚ :=
  let dxp := xs.getD i 0 - xs.getD j 0
  let dyp := ys.getD i 0 - ys.getD j 0
  let dzp := zs.getD i 0 - zs.getD j 0
  dxp * dxp + dyp * dyp + dzp * dzp

/-- The innermost candidate loop over one cell's bucket: skip `j == i`,
count candidates with `d2 <= thr2`, and break as soon as `cnt >= k`. -/
def cellLoop (kq : ℚ) (qual : ℕ → Bool) : ℕ → List ℕ → ℕ
  | cnt, [] => cnt
  | cnt, j :: rest =>
    if qual j then
      if kq ≤ ((cnt + 1 : ℕ) : ℚ) then cnt + 1 else cellLoop kq qual (cnt + 1) rest
    else cellLoop kq qual cnt rest

/-- The two outer offset loops collapsed to one guarded loop over the 27
buckets: each of the three nesting levels re-checks `cnt < k` before
descending, which amounts to checking `cnt < k` before each bucket. -/
def cellsLoop (kq : ℚ) (qual : ℕ → Bool) : ℕ → List (List ℕ) → ℕ
  | cnt, [] => cnt
  | cnt, arr :: rest =>
    if kq ≤ (cnt : ℚ) then cnt
    else cellsLoop kq qual (cellLoop kq qual cnt arr) rest

/-- The candidate qualification of the innermost loop body:
`j !== i` and `d2 <= thr2`. -/
def knnQual (xs ys zs : List ℚ) (thr2 : ℚ) (i : ℕ) : ℕ → Bool :=
  fun j => (!(j == i)) && decide (d2At xs ys zs i j ≤ thr2)

/-- Per-point classifier decision: scan the 27 buckets around `i`'s cell with
short-circuiting; the point is deleted iff the final count is `< k`. -/
def knnDecideAt (xs ys zs : List ℚ) (cells : ℤ × ℤ × ℤ → List ℕ)
    (kq thr2 inv : ℚ) (i : ℕ) : Bool :=
  decide (((cellsLoop kq (knnQual xs ys zs thr2 i) 0
    (nbrOffsets.map (fun d =>
      cells ((cellOf xs ys zs inv i).1 + d.1,
             (cellOf xs ys zs inv i).2.1 + d.2.1,
             (cellOf xs ys zs inv i).2.2 + d.2.2)))) : ℚ) < kq)

/-- The classification loop body's condition for point `i` holding byte `b`:
`isActive(i)` (the `DELETED` bit of the byte under scrutiny is clear) and the
final neighbor count is `< k`; `thr2 = threshold * threshold` and
`inv = 1 / threshold` as in the source. -/
def knnCond (xs ys zs : List ℚ) (base : List ℕ) (k threshold : ℚ) :
    ℕ → ℕ → Bool :=
  fun i b => (b &&& State.deleted == 0) &&
    knnDecideAt xs ys zs (buildCells xs ys zs (1 / threshold) base)
      k (threshold * threshold) (1 / threshold) i

/-- `apply(k, threshold)`: validate parameters, resolve buffers, capture
`beforeState`, ensure + restore the baseline, build the spatial hash from the
restored state, run the classification loop, push one undo operation.
(Cooperative yielding via `requestAnimationFrame` suspends and resumes the
same loop with all local state intact and is not modelled.) -/
def knnApply (t : KnnTool) (sc : Scene) (k threshold : ℚ) :
    KnnTool × Scene × List KnnOp :=
  if k < 1 then (t, sc, [])
  else if threshold ≤ 0 then (t, sc, [])
  else
    match getCtx sc with
    | none => (t, sc, [])
    | some (sp, xs, ys, zs) =>
      let beforeParams := t.lastParams.getD ⟨k, threshold⟩
      let afterParams : KnnParams := ⟨k, threshold⟩
      let beforeState := sp.state
      let baseline := t.baselineState.getD sp.state
      let t1 : KnnTool := { baselineState := some baseline,
                            lastParams := some afterParams }
      let newState := orBitPass (knnCond xs ys zs baseline k threshold) baseline
      (t1, some { sp with state := newState },
       [⟨beforeState, newState, beforeParams, afterParams⟩])

/-- `reset()`: when a baseline exists, restore it, push the restoration as a
reversible operation (params unchanged, defaulting to `{k: 8, threshold: 0.05}`),
and clear the baseline. -/
def knnReset (t : KnnTool) (sc : Scene) : KnnTool × Scene × List KnnOp :=
  match getCtx sc with
  | none => (t, sc, [])
  | some (sp, _, _, _) =>
    match t.baselineState with
    | none => (t, sc, [])
    | some b =>
      let beforeState := sp.state
      let afterState := b
      let p := t.lastParams.getD ⟨8, 0.05⟩
      ({ t with baselineState := none }, some { sp with state := afterState },
       [⟨beforeState, afterState, p, p⟩])

/-- Modelled from the spec: the reference brute-force classifier counts, over
all other visible points, those at squared distance `<= radius^2`. -/
def bruteCount (xs ys zs : List ℚ) (st : List ℕ) (thr2 : ℚ) (i : ℕ) : ℕ :=
  (List.range st.length).countP
    (fun j => (!(j == i)) && (st.getD j 0 &&& State.deleted == 0) &&
      decide (d2At xs ys zs i j ≤ thr2))

/-- Modelled from the spec: the brute-force classifier deletes a point iff
its full visible-neighbor count is strictly less than `k`. -/
def bruteDeleted (xs ys zs : List ℚ) (st : List ℕ) (kq thr2 : ℚ) (i : ℕ) : Bool :=
  decide ((bruteCount xs ys zs st thr2 i : ℚ) < kq)

/-- Concrete one-point splat used by witnesses. -/
def sampleSplat : Splat :=
  { x := some [0], y := some [0], z := some [0],
    scale0 := some [0], scale1 := some [0], scale2 := some [0],
    opacity := some [0], state := [0] }

/-- Modelled from the spec: the range-filter per-point decision in which a
given `decode` function is applied to every raw opacity value before
thresholding (used to state what "sigmoid decoding for every value" and
"raw comparison for every value" mean). -/
def specDecodeDelAt (decode : ℚ → ℚ) (s0 s1 s2 : List ℚ)
    (opArr : Option (List ℚ)) (minS maxS thr : ℚ) (i : ℕ) : Bool :=
  let sLog := max (s0.getD i 0) (max (s1.getD i 0) (s2.getD i 0))
  let del := decide (sLog < minS) || decide (maxS < sLog)
  if !del && decide (0 < thr) then
    match opArr with
    | some arr => del || decide (decode (arr.getD i 0) < thr)
    | none => del
  else del

/-- Modelled from the spec: the range-filter pass with a fixed opacity
`decode` function applied to every value. -/
def specRangePassSplat (decode : ℚ → ℚ) (t : ScaleTool) (sp : Splat) :
    ScaleTool × Splat :=
  let baseline := t.baselineState.getD sp.state
  let t1 : ScaleTool := { t with baselineState := some baseline }
  match sp.scale0, sp.scale1, sp.scale2 with
  | some s0, some s1, some s2 =>
    let newState := orBitPass
      (fun i _ => specDecodeDelAt decode s0 s1 s2 sp.opacity
        t.minScale t.maxScale t.opacityThreshold i) baseline
    (t1, { sp with state := newState })
  | _, _, _ => (t1, { sp with state := baseline })

theorem getD_set_ne {l : List ℕ} {i j : ℕ} {v d : ℕ} (h : i ≠ j) :
    (l.set j v).getD i d = l.getD i d := by
  induction l generalizing i j with
  | nil => simp
  | cons a t ih =>
    cases j with
    | zero =>
      cases i with
      | zero => exact absurd rfl h
      | succ i => simp [List.set]
    | succ j =>
      cases i with
      | zero => simp [List.set]
      | succ i => simpa [List.set] using ih (fun hh => h (by simp [hh]))

theorem getD_set_self {l : List ℕ} {j : ℕ} {v d : ℕ} (h : j < l.length) :
    (l.set j v).getD j d = v := by
  induction l generalizing j with
  | nil => simp at h
  | cons a t ih =>
    cases j with
    | zero => simp [List.set]
    | succ j => simpa [List.set] using ih (by simpa using h)

theorem set_of_length_le {l : List ℕ} {j : ℕ} {v : ℕ} (h : l.length ≤ j) :
    l.set j v = l := by
  induction l generalizing j with
  | nil => simp
  | cons a t ih =>
    cases j with
    | zero => simp at h
    | succ j => simp [List.set, ih (by simpa using h)]

theorem orBitPass_eq_aux (cond : ℕ → ℕ → Bool) (st : List ℕ) :
    orBitPass cond st = orBitAux cond st.length st := by
  suffices h : ∀ n, (List.range n).foldl
      (fun s i => if cond i (s.getD i 0) then s.set i (s.getD i 0 ||| State.deleted) else s) st
      = orBitAux cond n st from h st.length
  intro n
  induction n with
  | zero => simp [orBitAux]
  | succ n ih =>
    rw [List.range_succ, List.foldl_append, ih]
    simp [orBitAux]

theorem orBitAux_succ (cond : ℕ → ℕ → Bool) (n : ℕ) (st : List ℕ) :
    orBitAux cond (n + 1) st =
      if cond n ((orBitAux cond n st).getD n 0) then
        (orBitAux cond n st).set n ((orBitAux cond n st).getD n 0 ||| State.deleted)
      else orBitAux cond n st := rfl

theorem orBitAux_length (cond : ℕ → ℕ → Bool) (n : ℕ) (st : List ℕ) :
    (orBitAux cond n st).length = st.length := by
  induction n with
  | zero => rfl
  | succ n ih =>
    rw [orBitAux_succ]
    by_cases h : cond n ((orBitAux cond n st).getD n 0)
    · rw [if_pos h, List.length_set, ih]
    · rw [if_neg h, ih]

theorem orBitAux_getD_of_ge (cond : ℕ → ℕ → Bool) (n : ℕ) (st : List ℕ)
    {i : ℕ} (hi : n ≤ i) : (orBitAux cond n st).getD i 0 = st.getD i 0 := by
  induction n with
  | zero => rfl
  | succ n ih =>
    rw [orBitAux_succ]
    by_cases h : cond n ((orBitAux cond n st).getD n 0)
    · rw [if_pos h, getD_set_ne (show i ≠ n by omega), ih (by omega)]
    · rw [if_neg h, ih (by omega)]

theorem orBitAux_getD (cond : ℕ → ℕ → Bool) (n : ℕ) (st : List ℕ) (i : ℕ) :
    (orBitAux cond n st).getD i 0 =
      if i < n ∧ i < st.length ∧ cond i (st.getD i 0) then
        st.getD i 0 ||| State.deleted
      else st.getD i 0 := by
  induction n with
  | zero => simp [orBitAux]
  | succ n ih =>
    rw [orBitAux_succ]
    have hn : (orBitAux cond n st).getD n 0 = st.getD n 0 :=
      orBitAux_getD_of_ge cond n st (le_refl n)
    rcases lt_trichotomy i n with hlt | heq | hgt
    · have hiff : (i < n ∧ i < st.length ∧ cond i (st.getD i 0)) ↔
          (i < n + 1 ∧ i < st.length ∧ cond i (st.getD i 0)) := by
        constructor
        · rintro ⟨a, b, c⟩; exact ⟨by omega, b, c⟩
        · rintro ⟨a, b, c⟩; exact ⟨hlt, b, c⟩
      by_cases h : cond n ((orBitAux cond n st).getD n 0)
      · rw [if_pos h, getD_set_ne (show i ≠ n by omega), ih]
        exact if_congr hiff rfl rfl
      · rw [if_neg h, ih]
        exact if_congr hiff rfl rfl
    · subst heq
      rw [hn] at *
      by_cases h : cond i (st.getD i 0)
      · rw [if_pos h]
        by_cases hlen : i < st.length
        · rw [getD_set_self (by rw [orBitAux_length]; exact hlen)]
          rw [if_pos ⟨by omega, hlen, h⟩]
        · rw [set_of_length_le (by rw [orBitAux_length]; omega)]
          rw [orBitAux_getD_of_ge cond i st (le_refl i)]
          rw [if_neg (fun hc => hlen hc.2.1)]
      · rw [if_neg h]
        rw [orBitAux_getD_of_ge cond i st (le_refl i)]
        rw [if_neg (fun hc => h hc.2.2)]
    · have hout : ¬ (i < n + 1 ∧ i < st.length ∧ cond i (st.getD i 0)) :=
        fun hc => by omega
      by_cases h : cond n ((orBitAux cond n st).getD n 0)
      · rw [if_pos h, getD_set_ne (show i ≠ n by omega),
          orBitAux_getD_of_ge cond n st (by omega), if_neg hout]
      · rw [if_neg h, orBitAux_getD_of_ge cond n st (by omega), if_neg hout]

theorem orBitPass_length (cond : ℕ → ℕ → Bool) (st : List ℕ) :
    (orBitPass cond st).length = st.length := by
  rw [orBitPass_eq_aux]; exact orBitAux_length cond st.length st

theorem orBitPass_getD (cond : ℕ → ℕ → Bool) (st : List ℕ) (i : ℕ) :
    (orBitPass cond st).getD i 0 =
      if i < st.length ∧ cond i (st.getD i 0) then
        st.getD i 0 ||| State.deleted
      else st.getD i 0 := by
  rw [orBitPass_eq_aux, orBitAux_getD]
  by_cases h1 : i < st.length <;> by_cases h2 : cond i (st.getD i 0) <;> simp [h1, h2]

theorem cellLoop_cases (kq : ℚ) (qual : ℕ → Bool) (cnt : ℕ) (l : List ℕ) :
    cellLoop kq qual cnt l = cnt + l.countP qual ∨
      (kq ≤ (cellLoop kq qual cnt l : ℚ) ∧
        cellLoop kq qual cnt l ≤ cnt + l.countP qual) := by
  induction l generalizing cnt with
  | nil => left; simp [cellLoop]
  | cons j rest ih =>
    by_cases hq : qual j
    · rw [show cellLoop kq qual cnt (j :: rest) =
          if kq ≤ ((cnt + 1 : ℕ) : ℚ) then cnt + 1
          else cellLoop kq qual (cnt + 1) rest by simp [cellLoop, hq]]
      rw [List.countP_cons_of_pos _ _ hq]
      by_cases hk : kq ≤ ((cnt + 1 : ℕ) : ℚ)
      · right
        rw [if_pos hk]
        exact ⟨by exact_mod_cast hk, by omega⟩
      · rw [if_neg hk]
        rcases ih (cnt + 1) with h | ⟨h1, h2⟩
        · left; omega
        · right; exact ⟨h1, by omega⟩
    · rw [show cellLoop kq qual cnt (j :: rest) = cellLoop kq qual cnt rest by
        simp [cellLoop, hq]]
      rw [List.countP_cons_of_neg _ _ (by simpa using hq)]
      exact ih cnt

theorem cellsLoop_ge_iff (kq : ℚ) (qual : ℕ → Bool) (cnt : ℕ)
    (ls : List (List ℕ)) :
    kq ≤ (cellsLoop kq qual cnt ls : ℚ) ↔
      kq ≤ ((cnt + (ls.map (List.countP qual)).sum : ℕ) : ℚ) := by
  induction ls generalizing cnt with
  | nil => simp [cellsLoop]
  | cons arr rest ih =>
    by_cases hk : kq ≤ (cnt : ℚ)
    · rw [show cellsLoop kq qual cnt (arr :: rest) = cnt by simp [cellsLoop, hk]]
      refine iff_of_true hk ?_
      calc kq ≤ (cnt : ℚ) := hk
        _ ≤ _ := by exact_mod_cast Nat.le_add_right cnt _
    · rw [show cellsLoop kq qual cnt (arr :: rest) =
          cellsLoop kq qual (cellLoop kq qual cnt arr) rest by
        simp [cellsLoop, hk]]
      rw [ih]
      rcases cellLoop_cases kq qual cnt arr with h | ⟨h1, h2⟩
      · have hnat : cellLoop kq qual cnt arr + (rest.map (List.countP qual)).sum
            = cnt + ((arr :: rest).map (List.countP qual)).sum := by
          rw [List.map_cons, List.sum_cons, h]; omega
        rw [hnat]
      · have hle1 : cellLoop kq qual cnt arr ≤
            cellLoop kq qual cnt arr + (rest.map (List.countP qual)).sum :=
          Nat.le_add_right _ _
        have hle2 : cellLoop kq qual cnt arr ≤
            cnt + ((arr :: rest).map (List.countP qual)).sum := by
          rw [List.map_cons, List.sum_cons]; omega
        exact iff_of_true (le_trans h1 (by exact_mod_cast hle1))
          (le_trans h1 (by exact_mod_cast hle2))

theorem buildCells_foldl (xs ys zs : List ℚ) (inv : ℚ) (st : List ℕ)
    (l : List ℕ) (m : ℤ × ℤ × ℤ → List ℕ) (c : ℤ × ℤ × ℤ) :
    (l.foldl (fun m i =>
      if st.getD i 0 &&& State.deleted == 0 then
        cellKeyUpdate m (cellOf xs ys zs inv i) i
      else m) m) c
      = m c ++ l.filter (fun i => (st.getD i 0 &&& State.deleted == 0) &&
          (cellOf xs ys zs inv i == c)) := by
  induction l generalizing m with
  | nil => simp
  | cons i rest ih =>
    rw [List.foldl_cons, List.filter_cons]
    by_cases ha : st.getD i 0 &&& State.deleted = 0
    · have ha' : (st.getD i 0 &&& State.deleted == 0) = true := by
        rw [ha]; rfl
      rw [if_pos ha']
      rw [ih]
      by_cases hc : cellOf xs ys zs inv i = c
      · have hc' : (cellOf xs ys zs inv i == c) = true := by
          rw [hc]; exact beq_self_eq_true c
        rw [ha', hc', Bool.true_and, if_pos rfl]
        have hm : cellKeyUpdate m (cellOf xs ys zs inv i) i c = m c ++ [i] := by
          rw [cellKeyUpdate, if_pos hc.symm, hc]
        rw [hm, List.append_assoc]
        rfl
      · have hc' : (cellOf xs ys zs inv i == c) = false :=
          beq_eq_false_iff_ne.mpr hc
        rw [ha', hc', Bool.true_and, if_neg (by simp)]
        have hm : cellKeyUpdate m (cellOf xs ys zs inv i) i c = m c := by
          rw [cellKeyUpdate, if_neg (fun hh => hc hh.symm)]
        rw [hm]
    · have ha' : (st.getD i 0 &&& State.deleted == 0) = false := by
        rw [beq_eq_false_iff_ne]; exact ha
      rw [if_neg (by rw [ha']; exact Bool.false_ne_true), ih, ha',
        Bool.false_and, if_neg (by simp)]

theorem buildCells_apply (xs ys zs : List ℚ) (inv : ℚ) (st : List ℕ)
    (c : ℤ × ℤ × ℤ) :
    buildCells xs ys zs inv st c =
      (List.range st.length).filter
        (fun i => (st.getD i 0 &&& State.deleted == 0) &&
          (cellOf xs ys zs inv i == c)) := by
  rw [buildCells, buildCells_foldl]
  exact List.nil_append _

theorem countP_filter_eq (l : List ℕ) (p q : ℕ → Bool) :
    (l.filter p).countP q = l.countP (fun a => p a && q a) := by
  induction l with
  | nil => rfl
  | cons a t ih =>
    rw [List.filter_cons]
    by_cases hp : p a
    · by_cases hq : q a
      · rw [if_pos hp, List.countP_cons_of_pos _ _ hq,
          List.countP_cons_of_pos _ _ (by simp [hp, hq]), ih]
      · rw [if_pos hp, List.countP_cons_of_neg _ _ (by simpa using hq),
          List.countP_cons_of_neg _ _ (by simp [hp, hq]), ih]
    · rw [if_neg hp, List.countP_cons_of_neg _ _ (by simp [hp]), ih]

theorem countP_or_disjoint (l : List ℕ) (p q : ℕ → Bool)
    (hdisj : ∀ a, ¬(p a = true ∧ q a = true)) :
    l.countP (fun a => p a || q a) = l.countP p + l.countP q := by
  induction l with
  | nil => rfl
  | cons a t ih =>
    by_cases hp : p a
    · have hq : ¬ q a = true := fun hq => hdisj a ⟨hp, hq⟩
      rw [List.countP_cons_of_pos _ _ (by simp [hp]),
        List.countP_cons_of_pos _ _ hp, List.countP_cons_of_neg _ _ hq, ih]
      omega
    · by_cases hq : q a
      · rw [List.countP_cons_of_pos _ _ (by simp [hq]),
          List.countP_cons_of_neg _ _ hp, List.countP_cons_of_pos _ _ hq, ih]
        omega
      · rw [List.countP_cons_of_neg _ _ (by simp [hp, hq]),
          List.countP_cons_of_neg _ _ hp, List.countP_cons_of_neg _ _ hq, ih]

theorem countP_congr_eq (l : List ℕ) (p q : ℕ → Bool)
    (h : ∀ a, p a = q a) : l.countP p = l.countP q := by
  induction l with
  | nil => rfl
  | cons a t ih =>
    by_cases hp : p a
    · rw [List.countP_cons_of_pos _ _ hp,
        List.countP_cons_of_pos _ _ ((h a) ▸ hp), ih]
    · rw [List.countP_cons_of_neg _ _ hp,
        List.countP_cons_of_neg _ _ ((h a) ▸ hp), ih]

theorem countP_cells_sum (l : List ℕ) (act qual : ℕ → Bool)
    (g : ℕ → ℤ × ℤ × ℤ) (cs : List (ℤ × ℤ × ℤ)) (hnd : cs.Nodup) :
    (cs.map (fun c => l.countP
        (fun j => (act j && (g j == c)) && qual j))).sum
      = l.countP (fun j => (act j && qual j) && decide (g j ∈ cs)) := by
  induction cs with
  | nil =>
    rw [List.map_nil, List.sum_nil]
    symm
    rw [List.countP_eq_zero]
    intro a _
    simp
  | cons c cs ih =>
    have hc : c ∉ cs := (List.nodup_cons.mp hnd).1
    have hnd' : cs.Nodup := (List.nodup_cons.mp hnd).2
    rw [List.map_cons, List.sum_cons, ih hnd']
    have hsplit : l.countP (fun j => (act j && qual j) && decide (g j ∈ c :: cs))
        = l.countP (fun j => (act j && (g j == c)) && qual j)
          + l.countP (fun j => (act j && qual j) && decide (g j ∈ cs)) := by
      have hpt : ∀ j, ((act j && qual j) && decide (g j ∈ c :: cs))
          = (((act j && (g j == c)) && qual j) ||
             ((act j && qual j) && decide (g j ∈ cs))) := by
        intro j
        by_cases h1 : act j <;> by_cases h2 : qual j <;>
          by_cases h3 : g j = c <;> by_cases h4 : g j ∈ cs <;>
            simp [h1, h2, h3, h4]
      rw [countP_congr_eq _ _ _ hpt]
      apply countP_or_disjoint
      intro a ⟨hl, hr⟩
      simp only [Bool.and_eq_true, beq_iff_eq, decide_eq_true_eq] at hl hr
      exact hc (hl.1.2 ▸ hr.2)
    omega

theorem floor_scale_close (a b thr : ℚ) (hthr : 0 < thr)
    (h : (a - b) * (a - b) ≤ thr * thr) :
    ⌊a * (1 / thr)⌋ - 1 ≤ ⌊b * (1 / thr)⌋ ∧
      ⌊b * (1 / thr)⌋ ≤ ⌊a * (1 / thr)⌋ + 1 := by
  have hlo : -thr ≤ a - b := by nlinarith
  have hhi : a - b ≤ thr := by nlinarith
  have hinvpos : 0 < 1 / thr := by positivity
  have hinv : thr * (1 / thr) = 1 := mul_one_div_cancel (ne_of_gt hthr)
  have hble : b * (1 / thr) ≤ a * (1 / thr) + 1 := by
    have key : 0 ≤ (a + thr - b) * (1 / thr) :=
      mul_nonneg (by linarith) (le_of_lt hinvpos)
    nlinarith [key, hinv]
  have hage : a * (1 / thr) - 1 ≤ b * (1 / thr) := by
    have key : 0 ≤ (b + thr - a) * (1 / thr) :=
      mul_nonneg (by linarith) (le_of_lt hinvpos)
    nlinarith [key, hinv]
  constructor
  · have h1 : ⌊a * (1 / thr) - 1⌋ ≤ ⌊b * (1 / thr)⌋ := Int.floor_le_floor hage
    have h2 : ⌊a * (1 / thr) - 1⌋ = ⌊a * (1 / thr)⌋ - 1 := by
      exact_mod_cast Int.floor_sub_int (a * (1 / thr)) 1
    omega
  · have h1 : ⌊b * (1 / thr)⌋ ≤ ⌊a * (1 / thr) + 1⌋ := Int.floor_le_floor hble
    have h2 : ⌊a * (1 / thr) + 1⌋ = ⌊a * (1 / thr)⌋ + 1 := by
      exact_mod_cast Int.floor_add_int (a * (1 / thr)) 1
    omega

theorem mem_nbrOffsets_of_bounds (u v w : ℤ)
    (h1 : -1 ≤ u ∧ u ≤ 1) (h2 : -1 ≤ v ∧ v ≤ 1) (h3 : -1 ≤ w ∧ w ≤ 1) :
    (u, v, w) ∈ nbrOffsets := by
  have e1 : u = -1 ∨ u = 0 ∨ u = 1 := by omega
  have e2 : v = -1 ∨ v = 0 ∨ v = 1 := by omega
  have e3 : w = -1 ∨ w = 0 ∨ w = 1 := by omega
  rcases e1 with rfl | rfl | rfl <;> rcases e2 with rfl | rfl | rfl <;>
    rcases e3 with rfl | rfl | rfl <;> decide

theorem cell_mem_nbr (xs ys zs : List ℚ) (thr : ℚ) (hthr : 0 < thr) (i j : ℕ)
    (hd : d2At xs ys zs i j ≤ thr * thr) :
    ∃ d ∈ nbrOffsets,
      cellOf xs ys zs (1 / thr) j =
        ((cellOf xs ys zs (1 / thr) i).1 + d.1,
         (cellOf xs ys zs (1 / thr) i).2.1 + d.2.1,
         (cellOf xs ys zs (1 / thr) i).2.2 + d.2.2) := by
  have hdx : (xs.getD i 0 - xs.getD j 0) * (xs.getD i 0 - xs.getD j 0)
      ≤ thr * thr := by
    have h1 := mul_self_nonneg (ys.getD i 0 - ys.getD j 0)
    have h2 := mul_self_nonneg (zs.getD i 0 - zs.getD j 0)
    have := hd
    rw [d2At] at this
    nlinarith
  have hdy : (ys.getD i 0 - ys.getD j 0) * (ys.getD i 0 - ys.getD j 0)
      ≤ thr * thr := by
    have h1 := mul_self_nonneg (xs.getD i 0 - xs.getD j 0)
    have h2 := mul_self_nonneg (zs.getD i 0 - zs.getD j 0)
    have := hd
    rw [d2At] at this
    nlinarith
  have hdz : (zs.getD i 0 - zs.getD j 0) * (zs.getD i 0 - zs.getD j 0)
      ≤ thr * thr := by
    have h1 := mul_self_nonneg (xs.getD i 0 - xs.getD j 0)
    have h2 := mul_self_nonneg (ys.getD i 0 - ys.getD j 0)
    have := hd
    rw [d2At] at this
    nlinarith
  have hx := floor_scale_close (xs.getD i 0) (xs.getD j 0) thr hthr hdx
  have hy := floor_scale_close (ys.getD i 0) (ys.getD j 0) thr hthr hdy
  have hz := floor_scale_close (zs.getD i 0) (zs.getD j 0) thr hthr hdz
  refine ⟨(⌊xs.getD j 0 * (1 / thr)⌋ - ⌊xs.getD i 0 * (1 / thr)⌋,
           ⌊ys.getD j 0 * (1 / thr)⌋ - ⌊ys.getD i 0 * (1 / thr)⌋,
           ⌊zs.getD j 0 * (1 / thr)⌋ - ⌊zs.getD i 0 * (1 / thr)⌋), ?_, ?_⟩
  · exact mem_nbrOffsets_of_bounds _ _ _
      ⟨by omega, by omega⟩ ⟨by omega, by omega⟩ ⟨by omega, by omega⟩
  · rw [cellOf, cellOf]
    refine Prod.ext ?_ (Prod.ext ?_ ?_) <;> simp only [] <;> omega

theorem knn_counts_eq (xs ys zs : List ℚ) (st : List ℕ) (thr : ℚ)
    (hthr : 0 < thr) (i : ℕ) :
    ((nbrOffsets.map (fun d => buildCells xs ys zs (1 / thr) st
        ((cellOf xs ys zs (1 / thr) i).1 + d.1,
         (cellOf xs ys zs (1 / thr) i).2.1 + d.2.1,
         (cellOf xs ys zs (1 / thr) i).2.2 + d.2.2))).map
      (List.countP (knnQual xs ys zs (thr * thr) i))).sum
      = bruteCount xs ys zs st (thr * thr) i := by
  set ci := cellOf xs ys zs (1 / thr) i with hci
  set F : ℤ × ℤ × ℤ → ℤ × ℤ × ℤ :=
    fun d => (ci.1 + d.1, ci.2.1 + d.2.1, ci.2.2 + d.2.2) with hF
  have hcell : ∀ e, (buildCells xs ys zs (1 / thr) st e).countP
      (knnQual xs ys zs (thr * thr) i)
      = (List.range st.length).countP
          (fun j => ((st.getD j 0 &&& State.deleted == 0) &&
            (cellOf xs ys zs (1 / thr) j == e)) &&
            knnQual xs ys zs (thr * thr) i j) := by
    intro e
    rw [buildCells_apply, countP_filter_eq]
  rw [List.map_map]
  have hmaps : nbrOffsets.map
      ((List.countP (knnQual xs ys zs (thr * thr) i)) ∘
        (fun d => buildCells xs ys zs (1 / thr) st (F d)))
      = (nbrOffsets.map F).map (fun e => (List.range st.length).countP
          (fun j => ((st.getD j 0 &&& State.deleted == 0) &&
            (cellOf xs ys zs (1 / thr) j == e)) &&
            knnQual xs ys zs (thr * thr) i j)) := by
    rw [List.map_map]
    apply List.map_congr_left
    intro d _
    exact hcell (F d)
  rw [hmaps]
  have hnodup : (nbrOffsets.map F).Nodup := by
    apply List.Nodup.map
    · intro d1 d2 h
      obtain ⟨a1, b1, c1⟩ := d1
      obtain ⟨a2, b2, c2⟩ := d2
      simp only [hF, Prod.mk.injEq] at h
      refine Prod.ext ?_ (Prod.ext ?_ ?_) <;> simp <;> omega
    · decide
  rw [countP_cells_sum _ _ _ _ _ hnodup]
  apply countP_congr_eq
  intro j
  simp only [knnQual]
  by_cases hact : st.getD j 0 &&& State.deleted = 0
  · have hact' : (st.getD j 0 &&& State.deleted == 0) = true := by
      rw [hact]; rfl
    by_cases hji : j = i
    · have hji' : (j == i) = true := by rw [hji]; exact beq_self_eq_true i
      rw [hact', hji']
      simp only [Bool.not_true, Bool.false_and, Bool.and_false, Bool.true_and]
    · have hji' : (j == i) = false := beq_eq_false_iff_ne.mpr hji
      by_cases hd2 : d2At xs ys zs i j ≤ thr * thr
      · have hd2c : decide (d2At xs ys zs i j ≤ thr * thr) = true :=
          decide_eq_true hd2
        have hmem : cellOf xs ys zs (1 / thr) j ∈ nbrOffsets.map F := by
          obtain ⟨d, hdmem, hdeq⟩ := cell_mem_nbr xs ys zs thr hthr i j hd2
          exact List.mem_map.mpr ⟨d, hdmem, hdeq.symm⟩
        have hmem' : decide (cellOf xs ys zs (1 / thr) j ∈ nbrOffsets.map F)
            = true := decide_eq_true hmem
        rw [hact', hji', hd2c, hmem']
        rfl
      · have hd2c : decide (d2At xs ys zs i j ≤ thr * thr) = false :=
          decide_eq_false hd2
        rw [hact', hji', hd2c]
        simp only [Bool.not_false, Bool.true_and, Bool.and_false, Bool.false_and]
  · have hact' : (st.getD j 0 &&& State.deleted == 0) = false := by
      rw [beq_eq_false_iff_ne]; exact hact
    rw [hact']
    simp only [Bool.false_and, Bool.and_false]

theorem countP_join_sum (q : ℕ → Bool) (ls : List (List ℕ)) :
    (ls.map (List.countP q)).sum = ls.flatten.countP q := by
  induction ls with
  | nil => rfl
  | cons arr rest ih =>
    rw [List.map_cons, List.sum_cons, List.flatten_cons, List.countP_append, ih]

/-- Reduction of `knnApply` when parameters are valid and the context
resolves. -/
theorem knnApply_pos (t : KnnTool) (sp : Splat) (xs ys zs : List ℚ)
    (k threshold : ℚ) (hk : ¬ k < 1) (hthr : ¬ threshold ≤ 0)
    (hx : sp.x = some xs) (hy : sp.y = some ys) (hz : sp.z = some zs)
    (hne : xs.isEmpty = false) :
    knnApply t (some sp) k threshold =
      ({ baselineState := some (t.baselineState.getD sp.state),
         lastParams := some ⟨k, threshold⟩ },
       some { sp with state := orBitPass
                        (knnCond xs ys zs (t.baselineState.getD sp.state) k threshold)
                        (t.baselineState.getD sp.state) },
       [⟨sp.state,
         orBitPass (knnCond xs ys zs (t.baselineState.getD sp.state) k threshold)
           (t.baselineState.getD sp.state),
         t.lastParams.getD ⟨k, threshold⟩, ⟨k, threshold⟩⟩]) := by
  rw [knnApply, if_neg hk, if_neg hthr]
  have hctx : getCtx (some sp) = some (sp, xs, ys, zs) := by
    rw [getCtx, hx, hy, hz]
    show (if xs.isEmpty = true then none else some (sp, xs, ys, zs))
      = some (sp, xs, ys, zs)
    rw [hne, if_neg Bool.false_ne_true]
  rw [hctx]

/-- C2: for every currently-visible point, the short-circuiting spatial-hash
KNN classifier produces exactly the same deleted/visible decision as the
reference brute-force classifier that counts, over all other visible points,
those at squared distance at most `radius^2` and deletes the point iff that
full count is strictly less than `k`. -/
theorem c2_knn_hash_refines_bruteforce (xs ys zs : List ℚ) (st : List ℕ)
    (k thr : ℚ) (hthr : 0 < thr) (i : ℕ)
    (hvis : st.getD i 0 &&& State.deleted = 0) :
    knnDecideAt xs ys zs (buildCells xs ys zs (1 / thr) st)
        k (thr * thr) (1 / thr) i
      = bruteDeleted xs ys zs st k (thr * thr) i := by
  rw [knnDecideAt, bruteDeleted, decide_eq_decide]
  have h1 := cellsLoop_ge_iff k (knnQual xs ys zs (thr * thr) i) 0
    (nbrOffsets.map (fun d =>
      buildCells xs ys zs (1 / thr) st
        ((cellOf xs ys zs (1 / thr) i).1 + d.1,
         (cellOf xs ys zs (1 / thr) i).2.1 + d.2.1,
         (cellOf xs ys zs (1 / thr) i).2.2 + d.2.2)))
  have h2 : 0 + ((nbrOffsets.map (fun d =>
      buildCells xs ys zs (1 / thr) st
        ((cellOf xs ys zs (1 / thr) i).1 + d.1,
         (cellOf xs ys zs (1 / thr) i).2.1 + d.2.1,
         (cellOf xs ys zs (1 / thr) i).2.2 + d.2.2))).map
      (List.countP (knnQual xs ys zs (thr * thr) i))).sum
      = bruteCount xs ys zs st (thr * thr) i := by
    rw [Nat.zero_add]
    exact knn_counts_eq xs ys zs st thr hthr i
  rw [h2] at h1
  rw [lt_iff_not_le, lt_iff_not_le]
  exact not_congr h1

/-- Witness for C2 at a concrete two-point input. -/
theorem c2_witness :
    (0 : ℚ) < 1 ∧ ([0, 0] : List ℕ).getD 0 0 &&& State.deleted = 0 ∧
      knnDecideAt [0, 1/2] [0, 1/2] [0, 1/2]
          (buildCells [0, 1/2] [0, 1/2] [0, 1/2] (1 / 1) [0, 0])
          1 (1 * 1) (1 / 1) 0
        = bruteDeleted [0, 1/2] [0, 1/2] [0, 1/2] [0, 0] 1 (1 * 1) 0 :=
  ⟨by norm_num, by decide,
    c2_knn_hash_refines_bruteforce [0, 1/2] [0, 1/2] [0, 1/2] [0, 0] 1 1
      (by norm_num) 0 (by decide)⟩

/-- C8: the outlier classifier is deterministic in the two-run sense: (a) the
sequential pass gives every point an outcome that is a pure function of the
point positions and the visibility state at pass start (deletions made
earlier in the same pass do not change later points' neighbor counts), and
(b) the per-point decision is unchanged under any reordering of the candidate
neighbors scanned (only the short-circuit count depends on the order; the
final comparison against `k` does not). -/
theorem c8_knn_order_independent (t : KnnTool) (sp : Splat)
    (xs ys zs : List ℚ) (k thr : ℚ)
    (hk : ¬ k < 1) (hthr : ¬ thr ≤ 0)
    (hx : sp.x = some xs) (hy : sp.y = some ys) (hz : sp.z = some zs)
    (hne : xs.isEmpty = false) :
    (∀ i, (sceneState (knnApply t (some sp) k thr).2.1).getD i 0 =
      if i < (t.baselineState.getD sp.state).length ∧
          knnCond xs ys zs (t.baselineState.getD sp.state) k thr i
            ((t.baselineState.getD sp.state).getD i 0) then
        (t.baselineState.getD sp.state).getD i 0 ||| State.deleted
      else (t.baselineState.getD sp.state).getD i 0)
    ∧ (∀ (i : ℕ) (ls₂ : List (List ℕ)),
        ls₂.flatten.Perm
          (nbrOffsets.map (fun d =>
            buildCells xs ys zs (1 / thr) (t.baselineState.getD sp.state)
              ((cellOf xs ys zs (1 / thr) i).1 + d.1,
               (cellOf xs ys zs (1 / thr) i).2.1 + d.2.1,
               (cellOf xs ys zs (1 / thr) i).2.2 + d.2.2))).flatten →
        decide ((cellsLoop k (knnQual xs ys zs (thr * thr) i) 0 ls₂ : ℚ) < k)
          = knnDecideAt xs ys zs
              (buildCells xs ys zs (1 / thr) (t.baselineState.getD sp.state))
              k (thr * thr) (1 / thr) i) := by
  constructor
  · intro i
    rw [knnApply_pos t sp xs ys zs k thr hk hthr hx hy hz hne]
    show (orBitPass (knnCond xs ys zs (t.baselineState.getD sp.state) k thr)
      (t.baselineState.getD sp.state)).getD i 0 = _
    rw [orBitPass_getD]
  · intro i ls₂ hperm
    rw [knnDecideAt, decide_eq_decide, lt_iff_not_le, lt_iff_not_le]
    apply not_congr
    rw [cellsLoop_ge_iff, cellsLoop_ge_iff]
    have hsum : (ls₂.map (List.countP (knnQual xs ys zs (thr * thr) i))).sum
        = ((nbrOffsets.map (fun d =>
            buildCells xs ys zs (1 / thr) (t.baselineState.getD sp.state)
              ((cellOf xs ys zs (1 / thr) i).1 + d.1,
               (cellOf xs ys zs (1 / thr) i).2.1 + d.2.1,
               (cellOf xs ys zs (1 / thr) i).2.2 + d.2.2))).map
            (List.countP (knnQual xs ys zs (thr * thr) i))).sum := by
      rw [countP_join_sum, countP_join_sum]
      exact hperm.countP_eq _
    rw [hsum]

/-- Witness for C8 at a concrete one-point input. -/
theorem c8_witness :
    ¬ ((1 : ℚ) < 1) ∧
      (sceneState (knnApply ⟨none, none⟩ (some sampleSplat) 1 1).2.1).getD 0 0 =
        if 0 < ([0] : List ℕ).length ∧
            knnCond [0] [0] [0] [0] 1 1 0 (([0] : List ℕ).getD 0 0) then
          ([0] : List ℕ).getD 0 0 ||| State.deleted
        else ([0] : List ℕ).getD 0 0 :=
  ⟨by norm_num,
   (c8_knn_order_independent ⟨none, none⟩ sampleSplat [0] [0] [0] 1 1
      (by norm_num) (by norm_num) rfl rfl rfl rfl).1 0⟩

theorem getCtx_some {sc : Scene} {sp : Splat} {xs ys zs : List ℚ}
    (h : getCtx sc = some (sp, xs, ys, zs)) :
    sc = some sp ∧ sp.x = some xs ∧ sp.y = some ys ∧ sp.z = some zs ∧
      xs.isEmpty = false := by
  match sc with
  | none => exact absurd h (by rw [getCtx]; exact Option.noConfusion)
  | some sp' =>
    rw [getCtx] at h
    match hx : sp'.x, hy : sp'.y, hz : sp'.z with
    | some xs', some ys', some zs' =>
      rw [hx, hy, hz] at h
      have h' : (if xs'.isEmpty = true then none
          else some (sp', xs', ys', zs')) = some (sp, xs, ys, zs) := h
      by_cases he : xs'.isEmpty = true
      · rw [if_pos he] at h'
        exact absurd h' Option.noConfusion
      · rw [if_neg he] at h'
        obtain ⟨h1, h2, h3, h4⟩ :
            sp' = sp ∧ xs' = xs ∧ ys' = ys ∧ zs' = zs := by
          have hinj := Option.some.inj h'
          exact ⟨congrArg Prod.fst hinj,
            congrArg (fun p => p.2.1) hinj,
            congrArg (fun p => p.2.2.1) hinj,
            congrArg (fun p => p.2.2.2) hinj⟩
        subst h1; subst h2; subst h3; subst h4
        exact ⟨rfl, hx, hy, hz, Bool.not_eq_true _ ▸ he⟩
    | none, _, _ =>
      rw [hx] at h
      exact absurd h Option.noConfusion
    | some _, none, _ =>
      rw [hx, hy] at h
      exact absurd h Option.noConfusion
    | some _, some _, none =>
      rw [hx, hy, hz] at h
      exact absurd h Option.noConfusion

/-- C1: within one session (fixed baseline), previewing parameters `p1` and
then `p2` yields exactly the same state bitmask as a single preview of `p2`
from the original baseline — in particular previewing twice with the same
parameters is idempotent — because each preview (and each KNN apply) first
restores the baseline snapshot before re-running the filter.  For the KNN
tool the second parameter set must pass validation (`k >= 1`,
`threshold > 0`), since a rejected call leaves the bitmask of the first
apply in place. -/
theorem c1_preview_non_accumulation (exp : ℚ → ℚ) (t : ScaleTool) (sc : Scene)
    (mn1 mx1 mn2 mx2 : ℚ) (tk : KnnTool) (sck : Scene) (k1 thr1 k2 thr2 : ℚ)
    (hk2 : ¬ k2 < 1) (hthr2 : ¬ thr2 ≤ 0) :
    (previewScale exp (previewScale exp t sc mn1 mx1).1
        (previewScale exp t sc mn1 mx1).2 mn2 mx2).2
      = (previewScale exp t sc mn2 mx2).2
    ∧ (knnApply (knnApply tk sck k1 thr1).1 (knnApply tk sck k1 thr1).2.1
        k2 thr2).2.1
      = (knnApply tk sck k2 thr2).2.1 := by
  constructor
  · match sc with
    | none => rfl
    | some sp =>
      match h0 : sp.scale0, h1 : sp.scale1, h2 : sp.scale2 with
      | some s0, some s1, some s2 =>
        simp [previewScale, applyPreviewOnly, applyPreviewOnlySplat, h0, h1, h2]
      | none, _, _ =>
        simp [previewScale, applyPreviewOnly, applyPreviewOnlySplat, h0]
      | some s0, none, _ =>
        simp [previewScale, applyPreviewOnly, applyPreviewOnlySplat, h0, h1]
      | some s0, some s1, none =>
        simp [previewScale, applyPreviewOnly, applyPreviewOnlySplat, h0, h1, h2]
  · by_cases hk1 : k1 < 1
    · rw [show knnApply tk sck k1 thr1 = (tk, sck, []) by
        rw [knnApply, if_pos hk1]]
    · by_cases hthr1 : thr1 ≤ 0
      · rw [show knnApply tk sck k1 thr1 = (tk, sck, []) by
          rw [knnApply, if_neg hk1, if_pos hthr1]]
      · match hg : getCtx sck with
        | none =>
          rw [show knnApply tk sck k1 thr1 = (tk, sck, []) by
            rw [knnApply, if_neg hk1, if_neg hthr1, hg]]
        | some (sp, xs, ys, zs) =>
          obtain ⟨hsck, hx, hy, hz, hne⟩ := getCtx_some hg
          subst hsck
          have hstep := knnApply_pos
            (KnnTool.mk (some (tk.baselineState.getD sp.state))
              (some ⟨k1, thr1⟩))
            { sp with state := orBitPass (knnCond xs ys zs (tk.baselineState.getD sp.state) k1 thr1) (tk.baselineState.getD sp.state) }
            xs ys zs k2 thr2 hk2 hthr2 hx hy hz hne
          rw [knnApply_pos tk sp xs ys zs k1 thr1 hk1 hthr1 hx hy hz hne,
            knnApply_pos tk sp xs ys zs k2 thr2 hk2 hthr2 hx hy hz hne]
          simp only [hstep, Option.getD_some]

/-- Witness for C1 at concrete inputs. -/
theorem c1_witness :
    ¬ ((2 : ℚ) < 1) ∧ ¬ ((1 : ℚ) ≤ 0) ∧
      ((previewScale (fun q => q)
          (previewScale (fun q => q) ⟨none, -12, 2, 0, none⟩
            (some sampleSplat) (-1) 1).1
          (previewScale (fun q => q) ⟨none, -12, 2, 0, none⟩
            (some sampleSplat) (-1) 1).2 (-2) 2).2
        = (previewScale (fun q => q) ⟨none, -12, 2, 0, none⟩
            (some sampleSplat) (-2) 2).2
      ∧ (knnApply (knnApply ⟨none, none⟩ (some sampleSplat) 1 1).1
            (knnApply ⟨none, none⟩ (some sampleSplat) 1 1).2.1 2 1).2.1
        = (knnApply ⟨none, none⟩ (some sampleSplat) 2 1).2.1) :=
  ⟨by norm_num, by norm_num,
    c1_preview_non_accumulation (fun q => q) ⟨none, -12, 2, 0, none⟩
      (some sampleSplat) (-1) 1 (-2) 2 ⟨none, none⟩ (some sampleSplat)
      1 1 2 1 (by norm_num) (by norm_num)⟩

theorem applyPreviewOnlySplat_tool (exp : ℚ → ℚ) (t : ScaleTool) (sp : Splat) :
    (applyPreviewOnlySplat exp t sp).1 =
      { t with baselineState := some (t.baselineState.getD sp.state) } := by
  rcases h0 : sp.scale0 with _ | s0 <;> rcases h1 : sp.scale1 with _ | s1 <;>
    rcases h2 : sp.scale2 with _ | s2 <;>
      simp [applyPreviewOnlySplat, h0, h1, h2]

theorem applyPreviewOnlySplat_scene (exp : ℚ → ℚ) (t : ScaleTool) (sp : Splat) :
    (applyPreviewOnlySplat exp t sp).2 =
      { sp with state := ((applyPreviewOnlySplat exp t sp).2).state } := by
  rcases h0 : sp.scale0 with _ | s0 <;> rcases h1 : sp.scale1 with _ | s1 <;>
    rcases h2 : sp.scale2 with _ | s2 <;>
      simp [applyPreviewOnlySplat, h0, h1, h2]

theorem begin_nopending (exp : ℚ → ℚ) (kind : FilterKind) (t : ScaleTool)
    (sp : Splat) (hpend : t.pending = none) :
    begin exp kind t (some sp)
      = ({ t with pending := some ⟨kind, sp.state, getParams t⟩ },
         some sp, []) := by
  simp [begin, hpend, sceneState]

theorem previewScale_some (exp : ℚ → ℚ) (t : ScaleTool) (sp : Splat)
    (mn mx : ℚ) :
    previewScale exp t (some sp) mn mx
      = ((applyPreviewOnlySplat exp
            { t with minScale := mn, maxScale := mx } sp).1,
         some (applyPreviewOnlySplat exp
            { t with minScale := mn, maxScale := mx } sp).2) := by
  rw [previewScale, applyPreviewOnly]

theorem commit_matching (exp : ℚ → ℚ) (kind : FilterKind) (t2 : ScaleTool)
    (sp2 : Splat) (pend : Pending) (hp : t2.pending = some pend)
    (hk : pend.kind = kind) :
    commit exp kind t2 (some sp2)
      = ({ (applyPreviewOnlySplat exp t2 sp2).1 with pending := none },
         some (applyPreviewOnlySplat exp t2 sp2).2,
         [⟨pend.beforeState, (applyPreviewOnlySplat exp t2 sp2).2.state,
           pend.beforeParams, getParams (applyPreviewOnlySplat exp t2 sp2).1⟩]) := by
  simp [commit, hp, hk]

/-- C3: `begin(kind); applyPreview(p); commit(kind)` followed by the pushed
operation's `undo()` restores the state bitmask byte-for-byte and the filter
parameters to exactly the values present immediately before `begin()`:
`begin` captures `beforeState` as a copy of the current bitmask and
`beforeParams` as the current parameters, commit pushes exactly one
operation anchored at them, and `undo` reapplies both. -/
theorem c3_commit_undo_roundtrip (exp : ℚ → ℚ) (t : ScaleTool) (sp : Splat)
    (kind : FilterKind) (mn mx : ℚ)
    (t1 : ScaleTool) (sc1 : Scene) (ops1 : List ScaleOp)
    (t2 : ScaleTool) (sc2 : Scene)
    (t3 : ScaleTool) (sc3 : Scene) (ops3 : List ScaleOp)
    (hpend : t.pending = none)
    (h1 : begin exp kind t (some sp) = (t1, sc1, ops1))
    (h2 : previewScale exp t1 sc1 mn mx = (t2, sc2))
    (h3 : commit exp kind t2 sc2 = (t3, sc3, ops3)) :
    ∃ op : ScaleOp, ops3 = [op] ∧
      sceneState (scaleOpUndo op t3 sc3).2 = sp.state ∧
      getParams (scaleOpUndo op t3 sc3).1 = getParams t := by
  rw [begin_nopending exp kind t sp hpend] at h1
  simp only [Prod.mk.injEq] at h1
  obtain ⟨ht1, hsc1, hops1⟩ := h1
  subst ht1; subst hsc1
  rw [previewScale_some] at h2
  simp only [Prod.mk.injEq] at h2
  obtain ⟨ht2, hsc2⟩ := h2
  have hpend2 : t2.pending = some ⟨kind, sp.state, getParams t⟩ := by
    rw [← ht2, applyPreviewOnlySplat_tool]
  subst hsc2
  rw [commit_matching exp kind t2 _ ⟨kind, sp.state, getParams t⟩ hpend2 rfl]
      at h3
  simp only [Prod.mk.injEq] at h3
  obtain ⟨ht3, hsc3, hops3⟩ := h3
  refine ⟨⟨sp.state,
    (applyPreviewOnlySplat exp t2
      (applyPreviewOnlySplat exp
        { t with minScale := mn, maxScale := mx, pending := some ⟨kind, sp.state, getParams t⟩ } sp).2).2.state,
    getParams t,
    getParams (applyPreviewOnlySplat exp t2
      (applyPreviewOnlySplat exp
        { t with minScale := mn, maxScale := mx, pending := some ⟨kind, sp.state, getParams t⟩ } sp).2).1⟩,
    ?_, ?_, ?_⟩
  · rw [← hops3]
  · rw [← hsc3]
    rfl
  · rfl

/-- Witness for C3 at a concrete one-point input. -/
theorem c3_witness :
    (⟨none, -12, 2, 0, none⟩ : ScaleTool).pending = none ∧
    begin (fun q => q) FilterKind.scale ⟨none, -12, 2, 0, none⟩
        (some sampleSplat)
      = (⟨none, -12, 2, 0, some ⟨FilterKind.scale, [0], ⟨-12, 2, 0⟩⟩⟩,
         some sampleSplat, []) ∧
    previewScale (fun q => q)
        ⟨none, -12, 2, 0, some ⟨FilterKind.scale, [0], ⟨-12, 2, 0⟩⟩⟩
        (some sampleSplat) (-1) 1
      = (⟨some [0], -1, 1, 0, some ⟨FilterKind.scale, [0], ⟨-12, 2, 0⟩⟩⟩,
         some sampleSplat) ∧
    commit (fun q => q) FilterKind.scale
        ⟨some [0], -1, 1, 0, some ⟨FilterKind.scale, [0], ⟨-12, 2, 0⟩⟩⟩
        (some sampleSplat)
      = (⟨some [0], -1, 1, 0, none⟩, some sampleSplat,
         [⟨[0], [0], ⟨-12, 2, 0⟩, ⟨-1, 1, 0⟩⟩]) ∧
    (∃ op : ScaleOp, [(⟨[0], [0], ⟨-12, 2, 0⟩, ⟨-1, 1, 0⟩⟩ : ScaleOp)] = [op] ∧
      sceneState (scaleOpUndo op ⟨some [0], -1, 1, 0, none⟩
        (some sampleSplat)).2 = sampleSplat.state ∧
      getParams (scaleOpUndo op ⟨some [0], -1, 1, 0, none⟩
        (some sampleSplat)).1 = getParams ⟨none, -12, 2, 0, none⟩) :=
  ⟨rfl, by decide, by decide, by decide,
    c3_commit_undo_roundtrip (fun q => q) ⟨none, -12, 2, 0, none⟩ sampleSplat
      FilterKind.scale (-1) 1
      ⟨none, -12, 2, 0, some ⟨FilterKind.scale, [0], ⟨-12, 2, 0⟩⟩⟩
      (some sampleSplat) []
      ⟨some [0], -1, 1, 0, some ⟨FilterKind.scale, [0], ⟨-12, 2, 0⟩⟩⟩
      (some sampleSplat)
      ⟨some [0], -1, 1, 0, none⟩ (some sampleSplat)
      [⟨[0], [0], ⟨-12, 2, 0⟩, ⟨-1, 1, 0⟩⟩]
      rfl (by decide) (by decide) (by decide)⟩

theorem getCtx_pos (sp : Splat) (xs ys zs : List ℚ)
    (hx : sp.x = some xs) (hy : sp.y = some ys) (hz : sp.z = some zs)
    (hne : xs.isEmpty = false) :
    getCtx (some sp) = some (sp, xs, ys, zs) := by
  rw [getCtx, hx, hy, hz]
  show (if xs.isEmpty = true then none else some (sp, xs, ys, zs))
    = some (sp, xs, ys, zs)
  rw [hne, if_neg Bool.false_ne_true]

/-- C9: when a baseline exists, `reset()` restores the state bitmask from the
baseline snapshot, clears the baseline so the next apply starts a fresh
session, and pushes this restoration itself as exactly one reversible
operation whose `undo` reapplies the pre-reset bitmask and whose `do`
reapplies the baseline. -/
theorem c9_knn_reset (t : KnnTool) (sp : Splat) (xs ys zs : List ℚ)
    (b : List ℕ)
    (hx : sp.x = some xs) (hy : sp.y = some ys) (hz : sp.z = some zs)
    (hne : xs.isEmpty = false) (hb : t.baselineState = some b)
    (t' : KnnTool) (sc' : Scene) (ops : List KnnOp)
    (h : knnReset t (some sp) = (t', sc', ops)) :
    sceneState sc' = b ∧ t'.baselineState = none ∧
      ∃ op : KnnOp, ops = [op] ∧
        sceneState (knnOpUndo op t' sc').2 = sp.state ∧
        sceneState (knnOpDo op t' sc').2 = b := by
  have hctx := getCtx_pos sp xs ys zs hx hy hz hne
  have hcomp : knnReset t (some sp)
      = ({ t with baselineState := none }, some { sp with state := b },
         [⟨sp.state, b, t.lastParams.getD ⟨8, 0.05⟩,
           t.lastParams.getD ⟨8, 0.05⟩⟩]) := by
    simp [knnReset, hctx, hb]
  rw [hcomp] at h
  simp only [Prod.mk.injEq] at h
  obtain ⟨ht, hsc, hops⟩ := h
  subst ht; subst hsc; subst hops
  exact ⟨rfl, rfl, ⟨_, rfl, rfl, rfl⟩⟩

/-- Witness for C9 at a concrete one-point input with baseline `[4]`. -/
theorem c9_witness :
    sampleSplat.x = some [0] ∧
      (⟨some [4], some ⟨2, 1⟩⟩ : KnnTool).baselineState = some [4] ∧
      knnReset ⟨some [4], some ⟨2, 1⟩⟩ (some sampleSplat)
        = (⟨none, some ⟨2, 1⟩⟩,
           some ⟨some [0], some [0], some [0], some [0], some [0], some [0],
             some [0], [4]⟩,
           [⟨[0], [4], ⟨2, 1⟩, ⟨2, 1⟩⟩]) ∧
      (sceneState (some (⟨some [0], some [0], some [0], some [0], some [0],
          some [0], some [0], [4]⟩ : Splat)) = [4] ∧
        (⟨none, some ⟨2, 1⟩⟩ : KnnTool).baselineState = none ∧
        ∃ op : KnnOp, [(⟨[0], [4], ⟨2, 1⟩, ⟨2, 1⟩⟩ : KnnOp)] = [op] ∧
          sceneState (knnOpUndo op ⟨none, some ⟨2, 1⟩⟩
            (some ⟨some [0], some [0], some [0], some [0], some [0], some [0],
              some [0], [4]⟩)).2 = sampleSplat.state ∧
          sceneState (knnOpDo op ⟨none, some ⟨2, 1⟩⟩
            (some ⟨some [0], some [0], some [0], some [0], some [0], some [0],
              some [0], [4]⟩)).2 = [4]) :=
  ⟨rfl, rfl, by decide,
    c9_knn_reset ⟨some [4], some ⟨2, 1⟩⟩ sampleSplat [0] [0] [0] [4]
      rfl rfl rfl rfl rfl ⟨none, some ⟨2, 1⟩⟩
      (some ⟨some [0], some [0], some [0], some [0], some [0], some [0],
        some [0], [4]⟩)
      [⟨[0], [4], ⟨2, 1⟩, ⟨2, 1⟩⟩] (by decide)⟩

theorem and_deleted_eq (b : ℕ) :
    b &&& State.deleted = (b.testBit 2).toNat * 4 := by
  have h := Nat.and_two_pow b 2
  norm_num at h
  exact h

theorem or_deleted_and (b : ℕ) :
    (b ||| State.deleted) &&& State.deleted = 4 := by
  rw [and_deleted_eq]
  have ht : (b ||| State.deleted).testBit 2 = true := by
    rw [Nat.testBit_or]
    have h4 : (State.deleted).testBit 2 = true := by decide
    rw [h4, Bool.or_true]
  rw [ht]
  rfl

theorem or_deleted_ne_zero (b : ℕ) :
    (b ||| State.deleted) &&& State.deleted ≠ 0 := by
  rw [or_deleted_and]
  exact (by norm_num : (4 : ℕ) ≠ 0)

theorem scaleDelAt_iff (exp : ℚ → ℚ) (s0 s1 s2 : List ℚ) (opArr : List ℚ)
    (isLogit : Bool) (minS maxS thr : ℚ) (i : ℕ) :
    scaleDelAt exp s0 s1 s2 (some opArr) isLogit minS maxS thr i = true
      ↔ (max (s0.getD i 0) (max (s1.getD i 0) (s2.getD i 0)) < minS
         ∨ maxS < max (s0.getD i 0) (max (s1.getD i 0) (s2.getD i 0))
         ∨ (0 < thr ∧
            (if isLogit then sigmoid exp (opArr.getD i 0)
             else opArr.getD i 0) < thr)) := by
  simp only [scaleDelAt]
  by_cases h1 : max (s0.getD i 0) (max (s1.getD i 0) (s2.getD i 0)) < minS
  · rw [decide_eq_true h1]
    simp only [Bool.true_or, Bool.not_true, Bool.false_and]
    rw [if_neg Bool.false_ne_true]
    exact iff_of_true rfl (Or.inl h1)
  · rw [decide_eq_false h1]
    simp only [Bool.false_or]
    by_cases h2 : maxS < max (s0.getD i 0) (max (s1.getD i 0) (s2.getD i 0))
    · rw [decide_eq_true h2]
      simp only [Bool.not_true, Bool.false_and]
      rw [if_neg Bool.false_ne_true]
      exact iff_of_true rfl (Or.inr (Or.inl h2))
    · rw [decide_eq_false h2]
      simp only [Bool.not_false, Bool.true_and]
      by_cases hthr : 0 < thr
      · rw [decide_eq_true hthr, if_pos rfl]
        simp only [Bool.false_or]
        rw [decide_eq_true_eq]
        constructor
        · intro ha
          exact Or.inr (Or.inr ⟨hthr, ha⟩)
        · rintro (hc | hc | ⟨_, hc⟩)
          · exact absurd hc h1
          · exact absurd hc h2
          · exact hc
      · rw [decide_eq_false hthr]
        rw [if_neg Bool.false_ne_true]
        constructor
        · intro hc
          exact absurd hc Bool.false_ne_true
        · rintro (hc | hc | ⟨hc, _⟩)
          · exact absurd hc h1
          · exact absurd hc h2
          · exact absurd hc hthr

/-- C6: after a range-filter pass, a currently-visible point is marked
`DELETED` iff `max(scale0, scale1, scale2)` falls outside the closed interval
`[minScale, maxScale]` (bounds inclusive, by the strict comparisons), or,
when `opacityThreshold > 0`, its decoded opacity is strictly below
`opacityThreshold`. -/
theorem c6_range_filter_decision (exp : ℚ → ℚ) (t : ScaleTool) (sp : Splat)
    (s0 s1 s2 opArr : List ℚ)
    (h0 : sp.scale0 = some s0) (h1 : sp.scale1 = some s1)
    (h2 : sp.scale2 = some s2) (hop : sp.opacity = some opArr) (i : ℕ)
    (hlen : i < (t.baselineState.getD sp.state).length)
    (hvis : (t.baselineState.getD sp.state).getD i 0 &&& State.deleted = 0) :
    ((applyPreviewOnlySplat exp t sp).2.state.getD i 0 &&& State.deleted ≠ 0
      ↔ (max (s0.getD i 0) (max (s1.getD i 0) (s2.getD i 0)) < t.minScale
         ∨ t.maxScale < max (s0.getD i 0) (max (s1.getD i 0) (s2.getD i 0))
         ∨ (0 < t.opacityThreshold ∧
            (if opacityIsLogit (some opArr) then sigmoid exp (opArr.getD i 0)
             else opArr.getD i 0) < t.opacityThreshold))) := by
  have hsp : (applyPreviewOnlySplat exp t sp).2.state
      = orBitPass
          (fun j _ => scaleDelAt exp s0 s1 s2 sp.opacity
            (opacityIsLogit sp.opacity) t.minScale t.maxScale
            t.opacityThreshold j)
          (t.baselineState.getD sp.state) := by
    simp [applyPreviewOnlySplat, h0, h1, h2]
  rw [hsp, orBitPass_getD]
  rw [hop]
  by_cases hdel : scaleDelAt exp s0 s1 s2 (some opArr)
      (opacityIsLogit (some opArr)) t.minScale t.maxScale t.opacityThreshold i
      = true
  · rw [if_pos ⟨hlen, hdel⟩]
    rw [← scaleDelAt_iff exp s0 s1 s2 opArr (opacityIsLogit (some opArr))
      t.minScale t.maxScale t.opacityThreshold i]
    exact iff_of_true (or_deleted_ne_zero _) hdel
  · rw [if_neg (fun hc => hdel hc.2)]
    rw [← scaleDelAt_iff exp s0 s1 s2 opArr (opacityIsLogit (some opArr))
      t.minScale t.maxScale t.opacityThreshold i]
    constructor
    · intro hc
      exact absurd hvis hc
    · intro hc
      exact absurd hc hdel

/-- Witness for C6 at a concrete one-point input. -/
theorem c6_witness :
    sampleSplat.scale0 = some [0] ∧
      0 < (([0] : List ℕ)).length ∧
      (([0] : List ℕ)).getD 0 0 &&& State.deleted = 0 ∧
      ((applyPreviewOnlySplat (fun q => q) ⟨none, -12, 2, 0, none⟩
          sampleSplat).2.state.getD 0 0 &&& State.deleted ≠ 0
        ↔ (max (([0] : List ℚ).getD 0 0)
              (max (([0] : List ℚ).getD 0 0) (([0] : List ℚ).getD 0 0)) < -12
           ∨ (2 : ℚ) < max (([0] : List ℚ).getD 0 0)
              (max (([0] : List ℚ).getD 0 0) (([0] : List ℚ).getD 0 0))
           ∨ ((0 : ℚ) < 0 ∧
              (if opacityIsLogit (some [0]) then
                sigmoid (fun q => q) (([0] : List ℚ).getD 0 0)
               else ([0] : List ℚ).getD 0 0) < 0))) :=
  ⟨rfl, by decide, by decide,
    c6_range_filter_decision (fun q => q) ⟨none, -12, 2, 0, none⟩ sampleSplat
      [0] [0] [0] [0] rfl rfl rfl rfl 0 (by decide) (by decide)⟩

theorem scaleDelAt_logit_spec (exp : ℚ → ℚ) (s0 s1 s2 : List ℚ)
    (opA : Option (List ℚ)) (minS maxS thr : ℚ) (i : ℕ) :
    scaleDelAt exp s0 s1 s2 opA true minS maxS thr i
      = specDecodeDelAt (sigmoid exp) s0 s1 s2 opA minS maxS thr i := by
  rcases opA with _ | arr <;> simp [scaleDelAt, specDecodeDelAt]

theorem scaleDelAt_raw_spec (exp : ℚ → ℚ) (s0 s1 s2 : List ℚ)
    (opA : Option (List ℚ)) (minS maxS thr : ℚ) (i : ℕ) :
    scaleDelAt exp s0 s1 s2 opA false minS maxS thr i
      = specDecodeDelAt (fun r => r) s0 s1 s2 opA minS maxS thr i := by
  rcases opA with _ | arr <;> simp [scaleDelAt, specDecodeDelAt]

/-- C7: opacity encoding is detected by sampling only the first value of the
opacity buffer.  If that first value lies strictly outside `[0, 1]`, every
opacity value is decoded with `sigmoid(raw) = 1/(1 + e^-raw)` before being
compared to the threshold; if it lies inside `[0, 1]`, all raw values are
compared directly with no transform. -/
theorem c7_opacity_detection (exp : ℚ → ℚ) (t : ScaleTool) (sp : Splat)
    (opArr : List ℚ) (v : ℚ) (rest : List ℚ)
    (hop : sp.opacity = some opArr) (hcons : opArr = v :: rest) :
    ((v < 0 ∨ 1 < v) →
      applyPreviewOnlySplat exp t sp
        = specRangePassSplat (sigmoid exp) t sp)
    ∧ ((0 ≤ v ∧ v ≤ 1) →
      applyPreviewOnlySplat exp t sp
        = specRangePassSplat (fun r => r) t sp) := by
  constructor
  · intro hv
    have hlog : opacityIsLogit sp.opacity = true := by
      rw [hop, hcons, opacityIsLogit]
      rcases hv with hv | hv
      · rw [decide_eq_true hv, Bool.true_or]
      · rw [decide_eq_true hv, Bool.or_true]
    rcases h0 : sp.scale0 with _ | s0 <;> rcases h1 : sp.scale1 with _ | s1 <;>
      rcases h2 : sp.scale2 with _ | s2 <;>
        simp [applyPreviewOnlySplat, specRangePassSplat, h0, h1, h2, hlog,
          scaleDelAt_logit_spec]
  · intro hv
    have hlog : opacityIsLogit sp.opacity = false := by
      rw [hop, hcons, opacityIsLogit]
      rw [decide_eq_false (not_lt.mpr hv.1), decide_eq_false (not_lt.mpr hv.2),
        Bool.or_false]
    rcases h0 : sp.scale0 with _ | s0 <;> rcases h1 : sp.scale1 with _ | s1 <;>
      rcases h2 : sp.scale2 with _ | s2 <;>
        simp [applyPreviewOnlySplat, specRangePassSplat, h0, h1, h2, hlog,
          scaleDelAt_raw_spec]

/-- Witness for C7: a first opacity value of `-2` (outside `[0,1]`) triggers
sigmoid decoding of the whole pass. -/
theorem c7_witness :
    (⟨some [0], some [0], some [0], some [0], some [0], some [0],
        some [-2, 3], [0, 0]⟩ : Splat).opacity = some [-2, 3] ∧
      ((-2 : ℚ) < 0 ∨ 1 < (-2 : ℚ)) ∧
      applyPreviewOnlySplat (fun q => q) ⟨none, -12, 2, 0, none⟩
          ⟨some [0], some [0], some [0], some [0], some [0], some [0],
            some [-2, 3], [0, 0]⟩
        = specRangePassSplat (sigmoid (fun q => q)) ⟨none, -12, 2, 0, none⟩
          ⟨some [0], some [0], some [0], some [0], some [0], some [0],
            some [-2, 3], [0, 0]⟩ :=
  ⟨rfl, Or.inl (by norm_num),
    (c7_opacity_detection (fun q => q) ⟨none, -12, 2, 0, none⟩
      ⟨some [0], some [0], some [0], some [0], some [0], some [0],
        some [-2, 3], [0, 0]⟩ [-2, 3] (-2) [3] rfl rfl).1
      (Or.inl (by norm_num))⟩

theorem orBitPass_bits (cond : ℕ → ℕ → Bool) (st : List ℕ) (i : ℕ) :
    ((orBitPass cond st).getD i 0 = st.getD i 0 ∨
      (orBitPass cond st).getD i 0 = st.getD i 0 ||| State.deleted)
    ∧ (∀ j, j ≠ 2 →
        ((orBitPass cond st).getD i 0).testBit j = (st.getD i 0).testBit j)
    ∧ (st.getD i 0 &&& State.deleted ≠ 0 →
        (orBitPass cond st).getD i 0 &&& State.deleted ≠ 0) := by
  rw [orBitPass_getD]
  by_cases hc : i < st.length ∧ cond i (st.getD i 0)
  · rw [if_pos hc]
    refine ⟨Or.inr rfl, ?_, ?_⟩
    · intro j hj
      rw [Nat.testBit_or]
      have hdel : (State.deleted).testBit j = false := by
        have h4 : State.deleted = 2 ^ 2 := by norm_num [State.deleted]
        rw [h4]
        exact Nat.testBit_two_pow_of_ne (fun h => hj h.symm)
      rw [hdel, Bool.or_false]
    · intro _
      exact or_deleted_ne_zero _
  · rw [if_neg hc]
    exact ⟨Or.inl rfl, fun j _ => rfl, fun h => h⟩

theorem applyPreviewOnlySplat_state_cases (exp : ℚ → ℚ) (t : ScaleTool)
    (sp : Splat) :
    (applyPreviewOnlySplat exp t sp).2.state = t.baselineState.getD sp.state ∨
      ∃ cond, (applyPreviewOnlySplat exp t sp).2.state
        = orBitPass cond (t.baselineState.getD sp.state) := by
  rcases h0 : sp.scale0 with _ | s0
  · left; simp [applyPreviewOnlySplat, h0]
  · rcases h1 : sp.scale1 with _ | s1
    · left; simp [applyPreviewOnlySplat, h0, h1]
    · rcases h2 : sp.scale2 with _ | s2
      · left; simp [applyPreviewOnlySplat, h0, h1, h2]
      · right
        refine ⟨fun i _ => scaleDelAt exp s0 s1 s2 sp.opacity
          (opacityIsLogit sp.opacity) t.minScale t.maxScale
          t.opacityThreshold i, ?_⟩
        simp [applyPreviewOnlySplat, h0, h1, h2]

/-- C10: every filter pass (range-filter preview or outlier-classifier apply)
leaves each point's state byte equal either to its baseline byte, or to its
baseline byte with only the `DELETED` bit additionally set: all non-`DELETED`
bits end equal to the baseline's, and a point deleted in the baseline is
never made visible by any pass. -/
theorem c10_passes_preserve_bits (exp : ℚ → ℚ) (t : ScaleTool) (sp : Splat)
    (tk : KnnTool) (spk : Splat) (xs ys zs : List ℚ) (k thr : ℚ)
    (hk : ¬ k < 1) (hthr : ¬ thr ≤ 0)
    (hx : spk.x = some xs) (hy : spk.y = some ys) (hz : spk.z = some zs)
    (hne : xs.isEmpty = false) :
    (∀ i : ℕ,
      ((applyPreviewOnlySplat exp t sp).2.state.getD i 0
          = (t.baselineState.getD sp.state).getD i 0 ∨
        (applyPreviewOnlySplat exp t sp).2.state.getD i 0
          = (t.baselineState.getD sp.state).getD i 0 ||| State.deleted)
      ∧ (∀ j, j ≠ 2 →
          ((applyPreviewOnlySplat exp t sp).2.state.getD i 0).testBit j
            = ((t.baselineState.getD sp.state).getD i 0).testBit j)
      ∧ ((t.baselineState.getD sp.state).getD i 0 &&& State.deleted ≠ 0 →
          (applyPreviewOnlySplat exp t sp).2.state.getD i 0 &&& State.deleted
            ≠ 0))
    ∧ (∀ i : ℕ,
      ((sceneState (knnApply tk (some spk) k thr).2.1).getD i 0
          = (tk.baselineState.getD spk.state).getD i 0 ∨
        (sceneState (knnApply tk (some spk) k thr).2.1).getD i 0
          = (tk.baselineState.getD spk.state).getD i 0 ||| State.deleted)
      ∧ (∀ j, j ≠ 2 →
          ((sceneState (knnApply tk (some spk) k thr).2.1).getD i 0).testBit j
            = ((tk.baselineState.getD spk.state).getD i 0).testBit j)
      ∧ ((tk.baselineState.getD spk.state).getD i 0 &&& State.deleted ≠ 0 →
          (sceneState (knnApply tk (some spk) k thr).2.1).getD i 0 &&&
            State.deleted ≠ 0)) := by
  constructor
  · intro i
    rcases applyPreviewOnlySplat_state_cases exp t sp with h | ⟨cond, h⟩
    · rw [h]
      exact ⟨Or.inl rfl, fun j _ => rfl, fun hh => hh⟩
    · rw [h]
      exact orBitPass_bits cond _ i
  · intro i
    rw [knnApply_pos tk spk xs ys zs k thr hk hthr hx hy hz hne]
    show ((orBitPass (knnCond xs ys zs (tk.baselineState.getD spk.state) k thr)
        (tk.baselineState.getD spk.state)).getD i 0 = _ ∨ _) ∧ _
    exact orBitPass_bits _ _ i

/-- Witness for C10 at concrete one-point inputs. -/
theorem c10_witness :
    ¬ ((1 : ℚ) < 1) ∧ ¬ ((1 : ℚ) ≤ 0) ∧
      (((applyPreviewOnlySplat (fun q => q) ⟨none, -12, 2, 0, none⟩
            sampleSplat).2.state.getD 0 0 = (([0] : List ℕ)).getD 0 0 ∨
        (applyPreviewOnlySplat (fun q => q) ⟨none, -12, 2, 0, none⟩
            sampleSplat).2.state.getD 0 0
          = (([0] : List ℕ)).getD 0 0 ||| State.deleted)
      ∧ (∀ j, j ≠ 2 →
          ((applyPreviewOnlySplat (fun q => q) ⟨none, -12, 2, 0, none⟩
              sampleSplat).2.state.getD 0 0).testBit j
            = ((([0] : List ℕ)).getD 0 0).testBit j)
      ∧ ((([0] : List ℕ)).getD 0 0 &&& State.deleted ≠ 0 →
          (applyPreviewOnlySplat (fun q => q) ⟨none, -12, 2, 0, none⟩
              sampleSplat).2.state.getD 0 0 &&& State.deleted ≠ 0)) :=
  ⟨by norm_num, by norm_num,
    (c10_passes_preserve_bits (fun q => q) ⟨none, -12, 2, 0, none⟩ sampleSplat
      ⟨none, none⟩ sampleSplat [0] [0] [0] 1 1 (by norm_num) (by norm_num)
      rfl rfl rfl rfl).1 0⟩

/-- C4 counterexample: a direct range-filter call with `minScale > maxScale`
is not rejected — it runs and mutates the state bitmask (here it deletes the
only point), contradicting "reject before any mutation". -/
theorem c4_counterexample :
    (2 : ℚ) < 5 ∧
      sceneState (applyScale (fun q => q) ⟨none, -12, 2, 0, none⟩
          (some sampleSplat) 5 2).2.1 ≠ sampleSplat.state := by
  constructor
  · norm_num
  · decide

/-- C4 (amended): the outlier classifier rejects invalid parameters
(`k < 1` or `threshold <= 0`; non-finite values cannot arise in exact
arithmetic) before any mutation — tool state, scene and undo stack are left
untouched.  The range filter itself performs no such validation;
`minScale > maxScale` is instead prevented upstream by the slider emit
handler, which coerces `maxScale` to `minScale` before firing the filter
event, so the delivered parameters always satisfy `minScale <= maxScale`. -/
theorem c4_invalid_param_rejection (t : KnnTool) (sc : Scene)
    (k thr mn mx : ℚ) (hinv : k < 1 ∨ thr ≤ 0) :
    knnApply t sc k thr = (t, sc, []) ∧
      (emitScale mn mx).1 ≤ (emitScale mn mx).2 := by
  constructor
  · rcases hinv with h | h
    · rw [knnApply, if_pos h]
    · by_cases hk : k < 1
      · rw [knnApply, if_pos hk]
      · rw [knnApply, if_neg hk, if_pos h]
  · rw [emitScale]
    by_cases hc : mx < mn
    · rw [if_pos hc]
    · rw [if_neg hc]
      exact le_of_not_lt hc

/-- Witness for the amended C4 at `k = 0` (invalid) and a `min > max` pair. -/
theorem c4_witness :
    ((0 : ℚ) < 1 ∨ (1 : ℚ) ≤ 0) ∧
      (knnApply ⟨none, none⟩ (some sampleSplat) 0 1
          = (⟨none, none⟩, some sampleSplat, []) ∧
        (emitScale 5 2).1 ≤ (emitScale 5 2).2) :=
  ⟨Or.inl (by norm_num),
    c4_invalid_param_rejection ⟨none, none⟩ (some sampleSplat) 0 1 5 2
      (Or.inl (by norm_num))⟩

/-- C5 counterexample: `applyPreviewOnly` restores the baseline snapshot
before checking that the scale buffers resolve, so with a stale baseline
(`[4]`) differing from the current bitmask (`[0]`) and `scale_0` absent, the
"failed" call still mutates the state bitmask. -/
theorem c5_counterexample :
    (⟨some [0], some [0], some [0], none, some [0], some [0], some [0],
        [0]⟩ : Splat).scale0 = none ∧
      (applyPreviewOnlySplat (fun q => q) ⟨some [4], -12, 2, 0, none⟩
          ⟨some [0], some [0], some [0], none, some [0], some [0], some [0],
            [0]⟩).2.state
        ≠ (⟨some [0], some [0], some [0], none, some [0], some [0], some [0],
            [0]⟩ : Splat).state := by
  constructor
  · rfl
  · decide

/-- C5 (amended): when required buffers are absent or empty the pass aborts
with the bitmask left exactly as before the call, provided no stale baseline
differs from it: the KNN apply validates positions before touching anything,
so it never mutates; the range-filter preview restores the baseline before
detecting the missing scale buffers, so its bitmask is unchanged exactly when
no baseline exists or the baseline equals the current bitmask (always true
when the bitmask was not externally modified since the baseline was taken). -/
theorem c5_missing_data_no_mutation (tk : KnnTool) (sc : Scene) (k thr : ℚ)
    (exp : ℚ → ℚ) (t : ScaleTool) (sp : Splat)
    (hctx : getCtx sc = none) (h0 : sp.scale0 = none)
    (hbase : t.baselineState = none ∨ t.baselineState = some sp.state) :
    knnApply tk sc k thr = (tk, sc, []) ∧
      (applyPreviewOnlySplat exp t sp).2.state = sp.state := by
  constructor
  · by_cases hk : k < 1
    · rw [knnApply, if_pos hk]
    · by_cases hthr : thr ≤ 0
      · rw [knnApply, if_neg hk, if_pos hthr]
      · rw [knnApply, if_neg hk, if_neg hthr, hctx]
  · have hbb : t.baselineState.getD sp.state = sp.state := by
      rcases hbase with h | h <;> rw [h] <;> rfl
    simp [applyPreviewOnlySplat, h0, hbb]

/-- Witness for the amended C5: no scene for the KNN tool, and a splat with
no `scale_0` buffer and a fresh (equal) baseline for the range filter. -/
theorem c5_witness :
    getCtx none = none ∧
      (⟨some [0], some [0], some [0], none, some [0], some [0], some [0],
          [0]⟩ : Splat).scale0 = none ∧
      ((⟨some [0], -12, 2, 0, none⟩ : ScaleTool).baselineState = none ∨
        (⟨some [0], -12, 2, 0, none⟩ : ScaleTool).baselineState
          = some (⟨some [0], some [0], some [0], none, some [0], some [0],
              some [0], [0]⟩ : Splat).state) ∧
      (knnApply ⟨none, none⟩ none 1 1 = (⟨none, none⟩, none, []) ∧
        (applyPreviewOnlySplat (fun q => q) ⟨some [0], -12, 2, 0, none⟩
            ⟨some [0], some [0], some [0], none, some [0], some [0], some [0],
              [0]⟩).2.state
          = (⟨some [0], some [0], some [0], none, some [0], some [0], some [0],
              [0]⟩ : Splat).state) :=
  ⟨rfl, rfl, Or.inr rfl,
    c5_missing_data_no_mutation ⟨none, none⟩ none 1 1 (fun q => q)
      ⟨some [0], -12, 2, 0, none⟩
      ⟨some [0], some [0], some [0], none, some [0], some [0], some [0], [0]⟩
      rfl rfl (Or.inr rfl)⟩
